import Mathlib

/-!
Verification of the vocabulary-expansion and sequence-evaluation core of
`run_translation.py`.

Embedding conventions:
* numpy / torch 2-D arrays are `List (List α)` of rows; rectangularity (every
  row has the array's column count) is carried as a hypothesis where needed.
* Real-valued tensors are embedded over `ℚ`; the float literal `1e-5` is the
  rational `1 / 100000`; float round-off is out of the model's scope.
* A numpy float `nan` produced by a `0 / 0` true division is embedded as
  `Option.none`; raised Python exceptions are embedded as `Except.error`.
-/

namespace RunTranslation

/-- Errors `sequence_accuracy` can raise: the explicit batch-size assertion
at the top of the function, and the numpy broadcasting `ValueError` from
`(predictions == labels) * input_mask` when the two widths are incompatible. -/
inductive SeqErr where
  | batchMismatch : SeqErr
  | broadcastMismatch : SeqErr
deriving DecidableEq, Repr

/-- `np.pad(row, (0, w - len(row)))`: right-pad one row with zeros to width `w`. -/
def padRowTo (w : Nat) (r : List Int) : List Int :=
  r ++ List.replicate (w - r.length) 0

/-- The column count numpy would report for a (rectangular, non-empty) array. -/
def width (m : List (List Int)) : Nat :=
  (m.headD []).length

/-- One row of `(labels != pad).astype(int32)`. -/
def maskRow (pad : Int) (r : List Int) : List Int :=
  r.map (fun x => if x ≠ pad then (1 : Int) else 0)

/-- One row of the elementwise `predictions == labels` comparison (0/1 ints,
as numpy bools behave under `*` with an int array). -/
def eqRow (pr lr : List Int) : List Int :=
  List.zipWith (fun a b => if a = b then (1 : Int) else 0) pr lr

/-- Per-example accuracy from one 0/1 comparison row and one mask row of the
same width: `correct / length`, with the `0 / 0` nan embedded as `none`. -/
def accOfRows (er mr : List Int) : Option ℚ :=
  let c : Int := (List.zipWith (fun a b => a * b) er mr).sum
  let l : Int := mr.sum
  if l = 0 then none else some ((c : ℚ) / (l : ℚ))

/-- Per-example accuracy in the numpy broadcast case `label_len = 1`: the single
mask entry multiplies every comparison entry, and `length` is that entry alone. -/
def accOfRowsBcast (er : List Int) (m0 : Int) : Option ℚ :=
  let c : Int := (er.map (fun a => a * m0)).sum
  if m0 = 0 then none else some ((c : ℚ) / (m0 : ℚ))

/-- Embedding of `sequence_accuracy(predictions, labels, pad_token_id)`
(run_translation.py lines 666-681).  The input mask is computed from the
*unpadded* label array (the code builds it before `np.pad` is applied to
`labels`), so the elementwise product `(predictions == labels) * input_mask`
only broadcasts when `label_len ∈ {max_length, 1}`; otherwise numpy raises. -/
def sequence_accuracy (predictions labels : List (List Int)) (pad_token_id : Int) :
    Except SeqErr (List (Option ℚ)) :=
  let mp := width predictions
  let ml := width labels
  if predictions.length ≠ labels.length then .error .batchMismatch else
  let L := max mp ml
  let preds := predictions.map (padRowTo L)
  let input_mask := labels.map (maskRow pad_token_id)
  let labs := labels.map (padRowTo L)
  let eqs := List.zipWith eqRow preds labs
  if ml = L then
    .ok (List.zipWith accOfRows eqs input_mask)
  else if ml = 1 then
    .ok (List.zipWith (fun er mr => accOfRowsBcast er (mr.headD 0)) eqs input_mask)
  else
    .error .broadcastMismatch

/-- Mask row as the spec describes it: built from the *length-L padded* label
row. -/
def specMaskRow (pad : Int) (L : Nat) (lr : List Int) : List Int :=
  maskRow pad (padRowTo L lr)

/-- Per-example accuracy exactly as claim C1 words it: pad both rows to
`L`, build the mask from the padded label row, and return
`(sum_j [p_j = l_j] * mask_j) / (sum_j mask_j)` (none on a zero mask sum). -/
def specAccRow (pad : Int) (L : Nat) (pr lr : List Int) : Option ℚ :=
  accOfRows (eqRow (padRowTo L pr) (padRowTo L lr)) (specMaskRow pad L lr)

/-- The whole-batch result claim C1 asserts `sequence_accuracy` returns. -/
def claimedSeqAcc (predictions labels : List (List Int)) (pad : Int) :
    List (Option ℚ) :=
  List.zipWith (specAccRow pad (max (width predictions) (width labels)))
    predictions labels

/-- Python dict assignment `d[key] = v`: replace the value at an existing key
in place, else append the binding. -/
def dictSet (d : List (String × ℚ)) (key : String) (v : ℚ) : List (String × ℚ) :=
  match d with
  | [] => [(key, v)]
  | (k0, v0) :: rest =>
    if k0 = key then (key, v) :: rest else (k0, v0) :: dictSet rest key v

/-- Embedding of the COGS per-condition exact-match aggregation
(run_translation.py lines 801-808): for each unique condition,
`idx = [i for i, x in enumerate(condition_list) if x == cond]` and the entry is
`exact_matches[idx].sum() / len(idx)`; afterwards the key `"overall"` is set to
`exact_matches.sum() / len(exact_matches)`.  `list(set(...))` enumerates the
distinct labels in an unspecified order, abstracted here as `dedup`; numpy
fancy indexing is total only when `condition_list` is no longer than
`exact_matches`, which the theorems assume. -/
def exact_match_acc_by_condition (exact_matches : List Bool)
    (condition_list : List String) : List (String × ℚ) :=
  let unique_conditions := condition_list.dedup
  let d := unique_conditions.map (fun cond =>
    let idx := (List.range condition_list.length).filter
      (fun i => condition_list.getD i "" == cond)
    (cond, ((idx.countP (fun i => exact_matches.getD i false) : ℚ)) / (idx.length : ℚ)))
  dictSet d "overall" (((exact_matches.count true : Nat) : ℚ) / (exact_matches.length : ℚ))

/-- Spec-side count: exact matches inside the group of examples labelled `c`. -/
def groupMatchCount (exact_matches : List Bool) (condition_list : List String)
    (c : String) : Nat :=
  ((condition_list.zip exact_matches).filter (fun p => p.1 == c)).countP (fun p => p.2)

/-- Spec-side count: size of the group of examples labelled `c`. -/
def groupSize (condition_list : List String) (c : String) : Nat :=
  condition_list.count c

/-- Appends each token to the vocabulary, recording the id it receives (the
vocabulary size at the moment it is appended). -/
def addTokensGo : List String → List String → List String × List Nat
  | vocab, [] => (vocab, [])
  | vocab, t :: ts =>
    let res := addTokensGo (vocab ++ [t]) ts
    (res.1, vocab.length :: res.2)

/-- Modelled from the spec: `tokenizer.add_tokens` is implemented by the
external HuggingFace tokenizer, not by this repository (the script only calls
it in a loop at lines 422-424).  Per spec section 4.1, each token string —
optionally prefixed with a literal space — is registered by appending it to the
vocabulary, receiving the next available id (vocabulary size before the call
plus a running offset); the assigned ids are returned in input order. -/
def add_tokens (vocab : List String) (new_tokens : List String)
    (prependSpace : Bool) : List String × List Nat :=
  addTokensGo vocab
    (new_tokens.map (fun w => if prependSpace then " " ++ w else w))

/-- Column count of a rational matrix. -/
def widthQ (x : List (List ℚ)) : Nat :=
  (x.headD []).length

/-- Sum of column `j` over all rows. -/
def colSum (x : List (List ℚ)) (j : Nat) : ℚ :=
  (x.map (fun r => r.getD j 0)).sum

/-- `torch.mean(x, dim=0)`: the vector of column means. -/
def torchMeanDim0 (x : List (List ℚ)) : List ℚ :=
  (List.range (widthQ x)).map (fun j => colSum x j / (x.length : ℚ))

/-- `x - mu` with the vector `mu` broadcast across rows. -/
def rowsSubVec (x : List (List ℚ)) (mu : List ℚ) : List (List ℚ) :=
  x.map (fun r => List.zipWith (fun a b => a - b) r mu)

/-- `y.T @ y`: entry `(a, b)` is `sum_i y[i][a] * y[i][b]`. -/
def gramT (y : List (List ℚ)) : List (List ℚ) :=
  (List.range (widthQ y)).map (fun a =>
    (List.range (widthQ y)).map (fun b =>
      (y.map (fun r => r.getD a 0 * r.getD b 0)).sum))

/-- Division of every matrix entry by a row count. -/
def matDivNat (m : List (List ℚ)) (n : Nat) : List (List ℚ) :=
  m.map (fun r => r.map (fun a => a / (n : ℚ)))

/-- Multiplication of every matrix entry by a scalar. -/
def matScale (c : ℚ) (m : List (List ℚ)) : List (List ℚ) :=
  m.map (fun r => r.map (fun a => c * a))

/-- `mu = torch.mean(old_emb, dim=0)` (line 461). -/
def avgMu (old : List (List ℚ)) : List ℚ :=
  torchMeanDim0 old

/-- `sigma = ((old_emb - mu).T @ (old_emb - mu)) / n` (lines 462-463). -/
def avgSigma (old : List (List ℚ)) : List (List ℚ) :=
  matDivNat (gramT (rowsSubVec old (avgMu old))) old.length

/-- The covariance matrix `1e-5 * sigma` passed to `MultivariateNormal`
(lines 464-465); the float literal `1e-5` is embedded as `1 / 100000`. -/
def avgCov (old : List (List ℚ)) : List (List ℚ) :=
  matScale (1 / 100000) (avgSigma old)

/-- Spec-side column mean, written from the spec's words: the `j`-th entry of
the mean vector μ over the existing rows. -/
def specColMean (old : List (List ℚ)) (j : Nat) : ℚ :=
  (old.map (fun r => r.getD j 0)).sum / (old.length : ℚ)

/-- Spec-side covariance entry, written entrywise from the spec's formula
`Σ = (X-μ)ᵀ(X-μ)/n`: `Σ[a][b] = (sum_i (X i a - μ a)(X i b - μ b)) / n`
(population covariance: divisor `n`, not `n-1`). -/
def specCovEntry (old : List (List ℚ)) (a b : Nat) : ℚ :=
  (old.map (fun r =>
    (r.getD a 0 - specColMean old a) * (r.getD b 0 - specColMean old b))).sum
    / (old.length : ℚ)

/-- Determinant by Laplace expansion along the first row (used only to state
torch's positive-definiteness validation of the covariance matrix). -/
def detQ : List (List ℚ) → ℚ
  | [] => 1
  | r :: rest =>
    ((List.range r.length).map (fun j =>
      (-1 : ℚ) ^ j * r.getD j 0 *
        detQ (rest.map (fun row => row.take j ++ row.drop (j + 1))))).sum
termination_by m => m.length
decreasing_by simp [List.length_map]

/-- Sylvester's criterion: all leading principal minors positive.  For the
symmetric covariance matrices built above this is exactly the condition under
which torch's Cholesky factorisation (run when `MultivariateNormal` is
constructed) succeeds; float round-off aside. -/
def posDefQ (m : List (List ℚ)) : Bool :=
  (List.range m.length).all (fun k =>
    decide (0 < detQ ((m.take (k + 1)).map (fun r => r.take (k + 1)))))

/-- Python slice `m[:-k]` on the row axis: for `k = 0` this is `m[:0] = []`
(since `-0 == 0`), otherwise the first `length - k` rows (clamped at zero). -/
def sliceToNegK (m : List (List ℚ)) (k : Nat) : List (List ℚ) :=
  if k = 0 then [] else m.take (m.length - k)

/-- Row `i` of a matrix. -/
def rowAt (m : List (List ℚ)) (i : Nat) : List ℚ :=
  m.getD i []

/-- Successively overwrite rows `s, s+1, ...` with the given rows. -/
def setRowsFrom : List (List ℚ) → Nat → List (List ℚ) → List (List ℚ)
  | m, _, [] => m
  | m, s, r :: rs => setRowsFrom (m.set s r) (s + 1) rs

/-- The slice assignment `emb.weight.data[-k:, :] = new_emb` for `k ≥ 1`:
overwrite the last `k` rows in order.  (The `k = 0` anomaly — `[-0:]` being the
whole array — is unreachable: `torch.stack` on an empty tuple raises first.) -/
def assignLastRows (m : List (List ℚ)) (k : Nat) (rows : List (List ℚ)) :
    List (List ℚ) :=
  setRowsFrom m (m.length - k) rows

/-- Errors the initialization branches can raise (run_translation.py 454-483):
torch's `MultivariateNormal` constructor rejecting a nan or non-positive-
definite covariance, `torch.stack` on an empty tuple, and `np.random.choice`
asked for a without-replacement sample larger than its population. -/
inductive InitErr where
  | invalidDist : InitErr
  | emptyStack : InitErr
  | sampleTooLarge : InitErr
deriving DecidableEq, Repr

/-- Modelled external collaborator: `np.random.choice(range(0, n), k,
replace=False)` (line 474).  The generator state is abstracted as the order
`perm` in which it would emit the population `range n`; the call yields the
first `k` of that order and raises `ValueError` when `k > n`. -/
def npChoiceNoReplace (perm : List Nat) (n k : Nat) : Except InitErr (List Nat) :=
  if k ≤ n then .ok (perm.take k) else .error .sampleTooLarge

/-- Embedding of the `vocab_init_method` dispatch (run_translation.py lines
454-483), acting on the already-resized embedding matrix `m` with `k` newly
added rows.  `sample mu cov i` abstracts the `i`-th independent
`MultivariateNormal(mu, cov).sample()` draw; `perm` abstracts the numpy
generator state as above.  Any method other than `avg` and `existing_word`
falls into the final `else`, which only prints and leaves the matrix alone. -/
def vocabInitStep (method : String) (m : List (List ℚ)) (k : Nat)
    (sample : List ℚ → List (List ℚ) → Nat → List ℚ) (perm : List Nat) :
    Except InitErr (List (List ℚ)) :=
  if method = "avg" then
    let old := sliceToNegK m k
    if old.length = 0 then .error .invalidDist
    else if posDefQ (avgCov old) = false then .error .invalidDist
    else
      .ok (assignLastRows m k
        ((List.range k).map (sample (avgMu old) (avgCov old))))
  else if method = "existing_word" then
    match npChoiceNoReplace perm (m.length - k) k with
    | .error e => .error e
    | .ok randIndices =>
      if k = 0 then .error .emptyStack
      else .ok (assignLastRows m k (randIndices.map (rowAt m)))
  else
    .ok m

/-- Modelled from the spec: `model.resize_token_embeddings` is implemented by
the external HuggingFace model, not by this repository (only called at lines
433-440).  Per spec section 4.1 it grows the matrix to the requested row
count, preserving all existing rows and appending implementation-defined
placeholder rows (abstracted by `placeholder`), or truncates when shrinking. -/
def resize_embeddings (m : List (List ℚ)) (newSize : Nat)
    (placeholder : Nat → List ℚ) : List (List ℚ) :=
  if m.length ≤ newSize then
    m ++ (List.range (newSize - m.length)).map placeholder
  else m.take newSize

/-- The expansion pipeline of run_translation.py lines 433-483 for a matrix
whose row count equals the pre-expansion vocabulary size: resize to
`len(tokenizer) = old size + len(new_vocabs)`, then run the initializer
dispatch. -/
def expandAndInit (method : String) (newVocabs : List String)
    (m : List (List ℚ)) (placeholder : Nat → List ℚ)
    (sample : List ℚ → List (List ℚ) → Nat → List ℚ) (perm : List Nat) :
    Except InitErr (List (List ℚ)) :=
  vocabInitStep method
    (resize_embeddings m (m.length + newVocabs.length) placeholder)
    newVocabs.length sample perm

/-! ### Helper lemmas -/

theorem width_eq_of_rect {m : List (List Int)} {w : Nat} (hne : m ≠ [])
    (h : ∀ r ∈ m, r.length = w) : width m = w := by
  cases m with
  | nil => exact absurd rfl hne
  | cons r rest => exact h r (List.mem_cons_self r rest)

theorem padRowTo_eq_self {r : List Int} {w : Nat} (h : r.length = w) :
    padRowTo w r = r := by
  simp [padRowTo, h]

theorem zipAcc_eq (pad : Int) (L : Nat) :
    ∀ (p lb : List (List Int)), (∀ lr ∈ lb, lr.length = L) →
      List.zipWith accOfRows
        (List.zipWith eqRow (p.map (padRowTo L)) (lb.map (padRowTo L)))
        (lb.map (maskRow pad))
      = List.zipWith (specAccRow pad L) p lb := by
  intro p
  induction p with
  | nil => intro lb _; simp
  | cons pr prest ih =>
    intro lb hlb
    cases lb with
    | nil => simp
    | cons lr lrest =>
      have hlr : lr.length = L := hlb lr (List.mem_cons_self lr lrest)
      have hrest : ∀ r ∈ lrest, r.length = L := fun r hr =>
        hlb r (List.mem_cons_of_mem lr hr)
      simp only [List.map_cons, List.zipWith_cons_cons, ih lrest hrest]
      have hmask : maskRow pad lr = specMaskRow pad L lr := by
        rw [specMaskRow, padRowTo_eq_self hlr]
      rw [specAccRow, ← hmask]

theorem maskRow_sum_zero {pad : Int} :
    ∀ {lr : List Int}, (∀ x ∈ lr, x = pad) → (maskRow pad lr).sum = 0 := by
  intro lr
  induction lr with
  | nil => intro _; simp [maskRow]
  | cons a t ih =>
    intro h
    have ha : a = pad := h a (List.mem_cons_self a t)
    have ht := ih (fun x hx => h x (List.mem_cons_of_mem a hx))
    simp [maskRow, ha] at ht ⊢
    simpa [maskRow] using ht

theorem maskRow_headD_zero {pad : Int} {lr : List Int}
    (h : ∀ x ∈ lr, x = pad) : (maskRow pad lr).headD 0 = 0 := by
  cases lr with
  | nil => simp [maskRow]
  | cons a t =>
    have ha : a = pad := h a (List.mem_cons_self a t)
    simp [maskRow, ha]

/-! ### Claim C1 -/

/-- Claim C1, as stated, is false: it asserts that `sequence_accuracy` builds
its mask from the length-`L` right-padded label array and returns a
per-example accuracy for every equal-batch-size pair, but the code builds the
mask *before* padding the labels, so for `pred_len > label_len ≥ 2` the
elementwise product fails numpy broadcasting and the call raises instead of
returning.  Concretely: predictions `[[1,2,3]]`, labels `[[1,2]]`, `pad_id = 0`
raise a `ValueError` (the claim would have them return accuracy `1`). -/
theorem claim_C1_counterexample :
    sequence_accuracy [[1, 2, 3]] [[1, 2]] 0 = .error .broadcastMismatch := by
  rfl

/-- Claim C1 (amended): restricted to `label_len ≥ pred_len` — where the
unpadded label array already has the full length `L = max(pred_len,
label_len)`, so the mask the code builds from the unpadded labels coincides
with the claim's mask over the padded labels — `sequence_accuracy` returns
exactly the claimed list: `accuracy[i] = (sum_j [pred = label] * mask) /
(sum_j mask)`, with mask `1` exactly off `pad_id` (`none`, i.e. nan, on a
zero mask sum). -/
theorem claim_C1 (P Lb : List (List Int)) (pad : Int) (mp ml : Nat)
    (hP : ∀ r ∈ P, r.length = mp) (hL : ∀ r ∈ Lb, r.length = ml)
    (hB : P.length = Lb.length) (hne : P ≠ []) (hle : mp ≤ ml) :
    sequence_accuracy P Lb pad = .ok (claimedSeqAcc P Lb pad) := by
  have hLbne : Lb ≠ [] := by
    intro h0
    apply hne
    rw [h0] at hB
    exact List.length_eq_zero.mp hB
  have wP : width P = mp := width_eq_of_rect hne hP
  have wL : width Lb = ml := width_eq_of_rect hLbne hL
  have hcond : width Lb = max (width P) (width Lb) := by
    rw [wP, wL]; exact (Nat.max_eq_right hle).symm
  have hmax : max (width P) (width Lb) = ml := by
    rw [wP, wL]; exact Nat.max_eq_right hle
  simp only [sequence_accuracy, claimedSeqAcc]
  rw [if_neg (by simp [hB]), if_pos hcond, hmax]
  exact congrArg Except.ok (zipAcc_eq pad ml P Lb hL)

/-- Witness for the amended claim C1 at a concrete input. -/
theorem claim_C1_witness :
    sequence_accuracy [[1, 2]] [[1, 2, 0]] 0 = .ok (claimedSeqAcc [[1, 2]] [[1, 2, 0]] 0) :=
  claim_C1 [[1, 2]] [[1, 2, 0]] 0 2 3 (by decide) (by decide) (by decide)
    (by decide) (by decide)

/-! ### Claim C8 -/

/-- Claim C8: a batch containing an example whose gold row consists entirely of
`pad_id` never yields a finite accuracy for that example: the call either
raises, or returns with that example's entry being the `0 / 0` nan
(embedded as `none`). -/
theorem claim_C8 (P Lb : List (List Int)) (pad : Int) (i : Nat) (lr : List Int)
    (hB : P.length = Lb.length) (hi : Lb[i]? = some lr)
    (hpad : ∀ x ∈ lr, x = pad) :
    (∃ e, sequence_accuracy P Lb pad = .error e) ∨
    (∃ accs, sequence_accuracy P Lb pad = .ok accs ∧ accs[i]? = some none) := by
  have hiLb : i < Lb.length := by
    rcases List.getElem?_eq_some.mp hi with ⟨h, _⟩
    exact h
  have hiP : i < P.length := by rw [hB]; exact hiLb
  have hpi : P[i]? = some P[i] := List.getElem?_eq_getElem hiP
  have heqi : ∀ L0 : Nat,
      (List.zipWith eqRow (P.map (padRowTo L0)) (Lb.map (padRowTo L0)))[i]? =
        some (eqRow (padRowTo L0 P[i]) (padRowTo L0 lr)) := by
    intro L0
    exact List.getElem?_zipWith_eq_some.mpr
      ⟨padRowTo L0 P[i], padRowTo L0 lr, by simp [hpi], by simp [hi], rfl⟩
  have hmaski : (Lb.map (maskRow pad))[i]? = some (maskRow pad lr) := by
    simp [hi]
  simp only [sequence_accuracy]
  rw [if_neg (by simp [hB])]
  by_cases h1 : width Lb = max (width P) (width Lb)
  · rw [if_pos h1]
    refine Or.inr ⟨_, rfl, ?_⟩
    refine List.getElem?_zipWith_eq_some.mpr
      ⟨_, _, heqi (max (width P) (width Lb)), hmaski, ?_⟩
    unfold accOfRows
    rw [maskRow_sum_zero hpad]
    simp
  · rw [if_neg h1]
    by_cases h2 : width Lb = 1
    · rw [if_pos h2]
      refine Or.inr ⟨_, rfl, ?_⟩
      refine List.getElem?_zipWith_eq_some.mpr
        ⟨_, _, heqi (max (width P) (width Lb)), hmaski, ?_⟩
      unfold accOfRowsBcast
      rw [maskRow_headD_zero hpad]
      simp
    · rw [if_neg h2]
      exact Or.inl ⟨.broadcastMismatch, rfl⟩

/-- Witness for claim C8 at a concrete input (second gold row all padding). -/
theorem claim_C8_witness :
    (∃ e, sequence_accuracy [[1, 2], [3, 4]] [[1, 2], [9, 9]] 9 = .error e) ∨
    (∃ accs, sequence_accuracy [[1, 2], [3, 4]] [[1, 2], [9, 9]] 9 = .ok accs ∧
      accs[1]? = some none) :=
  claim_C8 [[1, 2], [3, 4]] [[1, 2], [9, 9]] 9 1 [9, 9] (by decide) (by decide)
    (by decide)

/-! ### Claim C10 -/

/-- Claim C10: whenever `pred_len > label_len ≥ 2` (equal batch sizes),
`sequence_accuracy` raises instead of returning per-example accuracies: the
mask is built over the unpadded label array, whose width is incompatible with
the width-`L` elementwise comparison under numpy broadcasting. -/
theorem claim_C10 (P Lb : List (List Int)) (pad : Int) (mp ml : Nat)
    (hP : ∀ r ∈ P, r.length = mp) (hL : ∀ r ∈ Lb, r.length = ml)
    (hB : P.length = Lb.length) (hne : P ≠ [])
    (hgt : ml < mp) (h2 : 2 ≤ ml) :
    sequence_accuracy P Lb pad = .error .broadcastMismatch := by
  have hLbne : Lb ≠ [] := by
    intro h0
    apply hne
    rw [h0] at hB
    exact List.length_eq_zero.mp hB
  have wP : width P = mp := width_eq_of_rect hne hP
  have wL : width Lb = ml := width_eq_of_rect hLbne hL
  have hmax : max (width P) (width Lb) = mp := by
    rw [wP, wL]; exact Nat.max_eq_left (Nat.le_of_lt hgt)
  unfold sequence_accuracy
  rw [if_neg (by simp [hB]), hmax, wL, if_neg (Nat.ne_of_lt hgt),
    if_neg (by omega)]

/-- Witness for claim C10 at a concrete input. -/
theorem claim_C10_witness :
    sequence_accuracy [[1, 2, 3]] [[5, 6]] 7 = .error .broadcastMismatch :=
  claim_C10 [[1, 2, 3]] [[5, 6]] 7 3 2 (by decide) (by decide) (by decide)
    (by decide) (by decide) (by decide)

/-! ### Claim C5 -/

theorem range_filter_length (c : String) :
    ∀ (conds : List String),
      ((List.range conds.length).filter (fun i => conds.getD i "" == c)).length
        = conds.count c := by
  intro conds
  induction conds with
  | nil => simp
  | cons a tl ih =>
    simp only [List.length_cons, List.range_succ_eq_map, List.filter_cons,
      List.filter_map, Function.comp_def, List.getD_cons_zero, List.getD_cons_succ]
    simp only [List.getD_eq_getElem?_getD] at ih ⊢
    by_cases hac : a = c
    · subst hac
      simp [ih, List.count_cons_self]
    · have h1 : (a == c) = false := by simp [hac]
      simp [h1, ih, List.count_cons_of_ne (fun h => hac h.symm)]

theorem range_filter_countP (c : String) :
    ∀ (conds : List String) (flags : List Bool), flags.length = conds.length →
      ((List.range conds.length).filter
          (fun i => conds.getD i "" == c)).countP (fun i => flags.getD i false)
        = groupMatchCount flags conds c := by
  intro conds
  induction conds with
  | nil =>
    intro flags h
    simp [groupMatchCount]
  | cons a tl ih =>
    intro flags h
    cases flags with
    | nil => simp at h
    | cons b ftl =>
      have hlen : ftl.length = tl.length := by simpa using h
      have ih2 := ih ftl hlen
      simp only [List.length_cons, List.range_succ_eq_map, List.filter_cons,
        List.filter_map, Function.comp_def, List.getD_cons_zero,
        List.getD_cons_succ, groupMatchCount, List.zip_cons_cons]
      simp only [List.getD_eq_getElem?_getD, groupMatchCount] at ih2 ⊢
      by_cases hac : a = c
      · subst hac
        simp [List.countP_cons, List.countP_map, Function.comp_def]
        rw [ih2]
      · have h1 : (a == c) = false := by simp [hac]
        simp [h1, List.countP_map, Function.comp_def]
        rw [ih2]

theorem lookup_map_self (f : String → ℚ) (c : String) :
    ∀ (us : List String), us.Nodup → c ∈ us →
      List.lookup c (us.map (fun u => (u, f u))) = some (f c) := by
  intro us
  induction us with
  | nil => intro _ h; simp at h
  | cons u tl ih =>
    intro hnd hmem
    rw [List.map_cons, List.lookup_cons]
    by_cases hcu : c = u
    · subst hcu
      simp
    · have hb : (c == u) = false := by simp [hcu]
      rw [hb]
      have hmem2 : c ∈ tl := by
        rcases List.mem_cons.mp hmem with h | h
        · exact absurd h hcu
        · exact h
      exact ih (List.Nodup.of_cons hnd) hmem2

theorem lookup_dictSet_same (key : String) (v : ℚ) :
    ∀ (d : List (String × ℚ)), List.lookup key (dictSet d key v) = some v := by
  intro d
  induction d with
  | nil => simp [dictSet]
  | cons p rest ih =>
    rcases p with ⟨k0, v0⟩
    rw [dictSet]
    by_cases hk : k0 = key
    · simp [hk]
    · rw [if_neg hk, List.lookup_cons]
      have hb : (key == k0) = false := by
        simp
        exact fun h => hk h.symm
      rw [hb]
      exact ih

theorem lookup_dictSet_other {c key : String} (hck : c ≠ key) (v : ℚ) :
    ∀ (d : List (String × ℚ)),
      List.lookup c (dictSet d key v) = List.lookup c d := by
  intro d
  induction d with
  | nil =>
    have hb : (c == key) = false := by simp [hck]
    simp [dictSet, List.lookup_cons, hb]
  | cons p rest ih =>
    rcases p with ⟨k0, v0⟩
    rw [dictSet]
    by_cases hk : k0 = key
    · subst hk
      rw [if_pos rfl, List.lookup_cons, List.lookup_cons]
      have hb : (c == k0) = false := by simp [hck]
      rw [hb]
    · rw [if_neg hk, List.lookup_cons, List.lookup_cons]
      by_cases hck0 : c = k0
      · simp [hck0]
      · have hb : (c == k0) = false := by simp [hck0]
        rw [hb]
        simpa using ih

/-- Claim C5: the per-condition aggregation maps each distinct condition label
to `(# exact matches in the group) / (group size)`, maps `"overall"` to
`(total exact matches) / (total examples)`, and on flags
`[True, False, True, True]` with conditions `["a","a","b","b"]` yields
`{"a": 0.5, "b": 1.0, "overall": 0.75}`. -/
theorem claim_C5 (flags : List Bool) (conds : List String)
    (hlen : flags.length = conds.length) :
    (∀ c ∈ conds, c ≠ "overall" →
      List.lookup c (exact_match_acc_by_condition flags conds)
        = some ((groupMatchCount flags conds c : ℚ) / (groupSize conds c : ℚ)))
    ∧ List.lookup "overall" (exact_match_acc_by_condition flags conds)
        = some (((flags.count true : Nat) : ℚ) / (flags.length : ℚ))
    ∧ List.lookup "a"
        (exact_match_acc_by_condition [true, false, true, true]
          ["a", "a", "b", "b"]) = some (1 / 2)
    ∧ List.lookup "b"
        (exact_match_acc_by_condition [true, false, true, true]
          ["a", "a", "b", "b"]) = some 1
    ∧ List.lookup "overall"
        (exact_match_acc_by_condition [true, false, true, true]
          ["a", "a", "b", "b"]) = some (3 / 4) := by
  have hgen : ∀ (fl : List Bool) (cs : List String), fl.length = cs.length →
      ∀ c ∈ cs, c ≠ "overall" →
        List.lookup c (exact_match_acc_by_condition fl cs)
          = some ((groupMatchCount fl cs c : ℚ) / (groupSize cs c : ℚ)) := by
    intro fl cs hl c hc hco
    rw [exact_match_acc_by_condition]
    rw [lookup_dictSet_other hco]
    have hmem : c ∈ cs.dedup := List.mem_dedup.mpr hc
    rw [lookup_map_self
      (fun cond => ((((List.range cs.length).filter
          (fun i => cs.getD i "" == cond)).countP
            (fun i => fl.getD i false) : Nat) : ℚ)
        / ((((List.range cs.length).filter
          (fun i => cs.getD i "" == cond)).length : Nat) : ℚ))
      c cs.dedup cs.nodup_dedup hmem]
    rw [range_filter_countP c cs fl hl, range_filter_length c cs]
    rfl
  have hover : ∀ (fl : List Bool) (cs : List String),
      List.lookup "overall" (exact_match_acc_by_condition fl cs)
        = some (((fl.count true : Nat) : ℚ) / (fl.length : ℚ)) := by
    intro fl cs
    rw [exact_match_acc_by_condition]
    exact lookup_dictSet_same "overall" _ _
  refine ⟨hgen flags conds hlen, hover flags conds, ?_, ?_, ?_⟩
  · rw [hgen [true, false, true, true] ["a", "a", "b", "b"] (by decide) "a"
      (by decide) (by decide)]
    have h1 : groupMatchCount [true, false, true, true] ["a", "a", "b", "b"] "a"
        = 1 := by decide
    have h2 : groupSize ["a", "a", "b", "b"] "a" = 2 := by decide
    rw [h1, h2]
    norm_num
  · rw [hgen [true, false, true, true] ["a", "a", "b", "b"] (by decide) "b"
      (by decide) (by decide)]
    have h1 : groupMatchCount [true, false, true, true] ["a", "a", "b", "b"] "b"
        = 2 := by decide
    have h2 : groupSize ["a", "a", "b", "b"] "b" = 2 := by decide
    rw [h1, h2]
    norm_num
  · rw [hover [true, false, true, true] ["a", "a", "b", "b"]]
    have h1 : [true, false, true, true].count true = 3 := by decide
    rw [h1]
    norm_num

/-- Witness for claim C5 at a concrete input. -/
theorem claim_C5_witness :
    List.lookup "a" (exact_match_acc_by_condition [true, false] ["a", "b"])
      = some ((groupMatchCount [true, false] ["a", "b"] "a" : ℚ)
        / (groupSize ["a", "b"] "a" : ℚ)) :=
  (claim_C5 [true, false] ["a", "b"] (by decide)).1 "a" (by decide) (by decide)

/-! ### Claim C4 -/

theorem addTokensGo_spec :
    ∀ (ts vocab : List String),
      (addTokensGo vocab ts).2 = List.range' vocab.length ts.length
      ∧ (addTokensGo vocab ts).1.length = vocab.length + ts.length := by
  intro ts
  induction ts with
  | nil =>
    intro vocab
    simp [addTokensGo]
  | cons t ts ih =>
    intro vocab
    have h := ih (vocab ++ [t])
    rw [List.length_append, List.length_singleton] at h
    rw [addTokensGo]
    constructor
    · show vocab.length :: (addTokensGo (vocab ++ [t]) ts).2
        = List.range' vocab.length (t :: ts).length
      rw [List.length_cons, List.range'_succ, h.1]
    · show (addTokensGo (vocab ++ [t]) ts).1.length
        = vocab.length + (t :: ts).length
      rw [h.2, List.length_cons]
      omega

/-- Claim C4: `add_tokens` assigns the new tokens a contiguous strictly
increasing run of ids starting at the old vocabulary size (`range'` ids, in
input order), and the expanded vocabulary has size `|V| + |T|`.  (Modelled
from the spec: the tokenizer itself is external.) -/
theorem claim_C4 (V T : List String) (ps : Bool) (_hnd : T.Nodup) :
    (add_tokens V T ps).2 = List.range' V.length T.length
    ∧ (add_tokens V T ps).1.length = V.length + T.length := by
  unfold add_tokens
  have h := addTokensGo_spec (T.map fun w => if ps then " " ++ w else w) V
  rw [List.length_map] at h
  exact h

/-- Witness for claim C4 at a concrete input. -/
theorem claim_C4_witness :
    (add_tokens ["x"] ["u", "v"] false).2 = List.range' 1 2
    ∧ (add_tokens ["x"] ["u", "v"] false).1.length = 1 + 2 :=
  claim_C4 ["x"] ["u", "v"] false (by decide)

/-! ### Matrix-update helper lemmas -/

theorem setRowsFrom_length :
    ∀ (rows m : List (List ℚ)) (s : Nat),
      (setRowsFrom m s rows).length = m.length := by
  intro rows
  induction rows with
  | nil => intro m s; rfl
  | cons r rs ih =>
    intro m s
    rw [setRowsFrom, ih, List.length_set]

theorem setRowsFrom_getElem?_lt :
    ∀ (rows m : List (List ℚ)) (s i : Nat), i < s →
      (setRowsFrom m s rows)[i]? = m[i]? := by
  intro rows
  induction rows with
  | nil => intro m s i _; rfl
  | cons r rs ih =>
    intro m s i h
    rw [setRowsFrom, ih (m.set s r) (s + 1) i (Nat.lt_succ_of_lt h)]
    exact List.getElem?_set_ne (Nat.ne_of_gt h)

theorem setRowsFrom_getElem?_add :
    ∀ (rows m : List (List ℚ)) (s i : Nat),
      s + rows.length ≤ m.length → i < rows.length →
      (setRowsFrom m s rows)[s + i]? = rows[i]? := by
  intro rows
  induction rows with
  | nil => intro m s i _ h; exact absurd h (Nat.not_lt_zero i)
  | cons r rs ih =>
    intro m s i hlen hi
    rw [setRowsFrom]
    cases i with
    | zero =>
      simp only [Nat.add_zero, List.getElem?_cons_zero]
      have hs : s < m.length := by
        rw [List.length_cons] at hlen
        omega
      rw [setRowsFrom_getElem?_lt rs (m.set s r) (s + 1) s (Nat.lt_succ_self s)]
      rw [List.getElem?_set_self hs]
    | succ j =>
      have hlen2 : (s + 1) + rs.length ≤ (m.set s r).length := by
        rw [List.length_set]
        rw [List.length_cons] at hlen
        omega
      have hj : j < rs.length := by
        rw [List.length_cons] at hi
        omega
      have harith : s + (j + 1) = (s + 1) + j := by omega
      rw [harith, ih (m.set s r) (s + 1) j hlen2 hj, List.getElem?_cons_succ]

theorem resize_grow_length (m : List (List ℚ)) (k : Nat) (ph : Nat → List ℚ) :
    (resize_embeddings m (m.length + k) ph).length = m.length + k := by
  rw [resize_embeddings, if_pos (Nat.le_add_right m.length k)]
  simp

theorem resize_grow_getElem? (m : List (List ℚ)) (k : Nat) (ph : Nat → List ℚ)
    (i : Nat) (hi : i < m.length) :
    (resize_embeddings m (m.length + k) ph)[i]? = m[i]? := by
  rw [resize_embeddings, if_pos (Nat.le_add_right m.length k)]
  exact List.getElem?_append_left hi

/-! ### Branch equations for the initializer dispatch -/

theorem vocabInitStep_other (p : String) (h1 : p ≠ "avg")
    (h2 : p ≠ "existing_word") (m : List (List ℚ)) (k : Nat)
    (sample : List ℚ → List (List ℚ) → Nat → List ℚ) (perm : List Nat) :
    vocabInitStep p m k sample perm = .ok m := by
  rw [vocabInitStep, if_neg h1, if_neg h2]

theorem vocabInitStep_avg_ok (m : List (List ℚ)) (k : Nat)
    (sample : List ℚ → List (List ℚ) → Nat → List ℚ) (perm : List Nat)
    (h0 : (sliceToNegK m k).length ≠ 0)
    (hpd : posDefQ (avgCov (sliceToNegK m k)) ≠ false) :
    vocabInitStep "avg" m k sample perm
      = .ok (assignLastRows m k ((List.range k).map
          (sample (avgMu (sliceToNegK m k)) (avgCov (sliceToNegK m k))))) := by
  rw [vocabInitStep, if_pos rfl, if_neg h0, if_neg hpd]

theorem vocabInitStep_avg_err (m : List (List ℚ)) (k : Nat)
    (sample : List ℚ → List (List ℚ) → Nat → List ℚ) (perm : List Nat)
    (h : (sliceToNegK m k).length = 0 ∨
      posDefQ (avgCov (sliceToNegK m k)) = false) :
    vocabInitStep "avg" m k sample perm = .error .invalidDist := by
  rw [vocabInitStep, if_pos rfl]
  rcases h with h | h
  · rw [if_pos h]
  · by_cases h0 : (sliceToNegK m k).length = 0
    · rw [if_pos h0]
    · rw [if_neg h0, if_pos h]

theorem vocabInitStep_existing_ok (m : List (List ℚ)) (k : Nat)
    (sample : List ℚ → List (List ℚ) → Nat → List ℚ) (perm : List Nat)
    (hkn : k ≤ m.length - k) (hk0 : k ≠ 0) :
    vocabInitStep "existing_word" m k sample perm
      = .ok (assignLastRows m k ((perm.take k).map (rowAt m))) := by
  rw [vocabInitStep, if_neg (by decide), if_pos rfl, npChoiceNoReplace,
    if_pos hkn]
  show (if k = 0 then Except.error InitErr.emptyStack else _) = _
  rw [if_neg hk0]

theorem vocabInitStep_existing_errLarge (m : List (List ℚ)) (k : Nat)
    (sample : List ℚ → List (List ℚ) → Nat → List ℚ) (perm : List Nat)
    (hkn : ¬ k ≤ m.length - k) :
    vocabInitStep "existing_word" m k sample perm = .error .sampleTooLarge := by
  rw [vocabInitStep, if_neg (by decide), if_pos rfl, npChoiceNoReplace,
    if_neg hkn]

theorem vocabInitStep_existing_errStack (m : List (List ℚ))
    (sample : List ℚ → List (List ℚ) → Nat → List ℚ) (perm : List Nat) :
    vocabInitStep "existing_word" m 0 sample perm = .error .emptyStack := by
  rw [vocabInitStep, if_neg (by decide), if_pos rfl, npChoiceNoReplace,
    if_pos (Nat.zero_le _)]
  rfl

/-! ### Claim C2 -/

theorem vocabInitStep_frame (method : String) (m : List (List ℚ)) (k : Nat)
    (sample : List ℚ → List (List ℚ) → Nat → List ℚ) (perm : List Nat)
    (m2 : List (List ℚ))
    (hok : vocabInitStep method m k sample perm = .ok m2)
    (i : Nat) (hi : i < m.length - k) : m2[i]? = m[i]? := by
  by_cases h1 : method = "avg"
  · subst h1
    by_cases h0 : (sliceToNegK m k).length = 0
    · rw [vocabInitStep_avg_err m k sample perm (Or.inl h0)] at hok
      cases hok
    · by_cases hpd : posDefQ (avgCov (sliceToNegK m k)) = false
      · rw [vocabInitStep_avg_err m k sample perm (Or.inr hpd)] at hok
        cases hok
      · rw [vocabInitStep_avg_ok m k sample perm h0 hpd] at hok
        cases hok
        exact setRowsFrom_getElem?_lt _ m (m.length - k) i hi
  · by_cases h2 : method = "existing_word"
    · subst h2
      by_cases hkn : k ≤ m.length - k
      · by_cases hk0 : k = 0
        · subst hk0
          rw [vocabInitStep_existing_errStack m sample perm] at hok
          cases hok
        · rw [vocabInitStep_existing_ok m k sample perm hkn hk0] at hok
          cases hok
          exact setRowsFrom_getElem?_lt _ m (m.length - k) i hi
      · rw [vocabInitStep_existing_errLarge m k sample perm hkn] at hok
        cases hok
    · rw [vocabInitStep_other method h1 h2 m k sample perm] at hok
      cases hok
      rfl

/-- Claim C2: resizing the embedding matrix and initializing the added rows —
under any policy value — leaves every pre-existing row exactly as it was:
only rows at the added indices are written. -/
theorem claim_C2 (method : String) (nv : List String) (m : List (List ℚ))
    (ph : Nat → List ℚ) (sample : List ℚ → List (List ℚ) → Nat → List ℚ)
    (perm : List Nat) (m2 : List (List ℚ))
    (hok : expandAndInit method nv m ph sample perm = .ok m2)
    (i : Nat) (hi : i < m.length) :
    m2[i]? = m[i]? := by
  rw [expandAndInit] at hok
  have hlen := resize_grow_length m nv.length ph
  have hi2 : i < (resize_embeddings m (m.length + nv.length) ph).length
      - nv.length := by
    rw [hlen]
    omega
  have h := vocabInitStep_frame method _ nv.length sample perm m2 hok i hi2
  rw [h, resize_grow_getElem? m nv.length ph i hi]

/-- Witness for claim C2 at a concrete run (default-branch policy). -/
theorem claim_C2_witness :
    ([[(1 : ℚ)], [0]] : List (List ℚ))[0]? = ([[(1 : ℚ)]] : List (List ℚ))[0]? :=
  claim_C2 "bogus" ["x"] [[1]] (fun _ => [0]) (fun _ _ _ => []) [] [[1], [0]]
    (by rfl) 0 (by decide)

/-! ### Claim C6 -/

/-- Claim C6: under the existing-word-copy policy, whenever the batch size
permits sampling (`k ≤ n`), the call succeeds, the chosen source-row indices
are pairwise distinct (the without-replacement draw is the prefix of the
generator's enumeration order of the population), and each new row is copied
verbatim from its chosen existing row. -/
theorem claim_C6 (m : List (List ℚ)) (k : Nat)
    (sample : List ℚ → List (List ℚ) → Nat → List ℚ) (perm : List Nat)
    (hperm : perm.Perm (List.range (m.length - k)))
    (hk : 1 ≤ k) (hkn : k ≤ m.length - k) :
    ∃ m2, vocabInitStep "existing_word" m k sample perm = .ok m2
      ∧ (perm.take k).Nodup
      ∧ ∀ i < k, m2[(m.length - k) + i]? = ((perm.take k)[i]?).map (rowAt m) := by
  refine ⟨_, vocabInitStep_existing_ok m k sample perm hkn (by omega), ?_, ?_⟩
  · have hnd : perm.Nodup := (hperm.nodup_iff).mpr (List.nodup_range _)
    exact (List.take_sublist k perm).nodup hnd
  · intro i hi
    have hlenperm : perm.length = m.length - k := by
      rw [hperm.length_eq, List.length_range]
    have htk : (perm.take k).length = k := by
      rw [List.length_take]
      omega
    have hbound : (m.length - k) + ((perm.take k).map (rowAt m)).length
        ≤ m.length := by
      rw [List.length_map, htk]
      omega
    have hik : i < ((perm.take k).map (rowAt m)).length := by
      rw [List.length_map, htk]
      exact hi
    show (setRowsFrom m (m.length - k) ((perm.take k).map (rowAt m)))[(m.length - k) + i]?
      = ((perm.take k)[i]?).map (rowAt m)
    rw [setRowsFrom_getElem?_add _ m (m.length - k) i hbound hik]
    exact List.getElem?_map (rowAt m) (perm.take k) i

/-- Witness for claim C6 at a concrete run. -/
theorem claim_C6_witness :
    ∃ m2, vocabInitStep "existing_word" [[(1 : ℚ)], [2], [3], [4]] 1
        (fun _ _ _ => []) [2, 0, 1] = .ok m2
      ∧ (([2, 0, 1] : List Nat).take 1).Nodup
      ∧ ∀ i < 1, m2[(([[(1 : ℚ)], [2], [3], [4]] : List (List ℚ)).length - 1) + i]?
          = ((([2, 0, 1] : List Nat).take 1)[i]?).map
              (rowAt [[(1 : ℚ)], [2], [3], [4]]) :=
  claim_C6 [[(1 : ℚ)], [2], [3], [4]] 1 (fun _ _ _ => []) [2, 0, 1]
    (by decide) (by decide) (by decide)

/-! ### Claim C7 -/

/-- Claim C7, as stated, is false on two counts: an unrecognized policy value
falls into the silent default branch (no `ConfigError`, matrix returned
unchanged), and existing-word-copy with a single existing row succeeds
(copying that row) rather than failing a minimum-rows check. -/
theorem claim_C7_counterexample :
    vocabInitStep "gaussian" [[(1 : ℚ)], [2]] 1 (fun _ _ _ => []) [0]
      = .ok [[1], [2]]
    ∧ vocabInitStep "existing_word" [[(1 : ℚ)], [2]] 1 (fun _ _ _ => []) [0]
      = .ok [[1], [1]] := by
  constructor <;> rfl

/-- Claim C7 (amended): only `avg` and `existing_word` are recognized policy
values; any other string selects the default branch, which never fails and
returns the matrix unchanged.  No fewer-than-2-existing-rows check exists:
existing-word-copy succeeds with a single existing row, and the only
row-count failure in the dispatch is requesting more new rows than existing
rows (numpy's without-replacement sampling error, not a `ConfigError`). -/
theorem claim_C7 :
    (∀ (p : String) (m : List (List ℚ)) (k : Nat)
      (sample : List ℚ → List (List ℚ) → Nat → List ℚ) (perm : List Nat),
      p ≠ "avg" → p ≠ "existing_word" →
      vocabInitStep p m k sample perm = .ok m)
    ∧ (∀ (m : List (List ℚ)) (k : Nat)
      (sample : List ℚ → List (List ℚ) → Nat → List ℚ) (perm : List Nat),
      m.length - k < k →
      vocabInitStep "existing_word" m k sample perm = .error .sampleTooLarge)
    ∧ (∀ (m : List (List ℚ))
      (sample : List ℚ → List (List ℚ) → Nat → List ℚ) (perm : List Nat),
      m.length = 2 →
      ∃ m2, vocabInitStep "existing_word" m 1 sample perm = .ok m2) := by
  refine ⟨?_, ?_, ?_⟩
  · intro p m k sample perm h1 h2
    exact vocabInitStep_other p h1 h2 m k sample perm
  · intro m k sample perm h
    exact vocabInitStep_existing_errLarge m k sample perm (by omega)
  · intro m sample perm hlen
    exact ⟨_, vocabInitStep_existing_ok m 1 sample perm (by omega) (by omega)⟩

/-- Witness for the amended claim C7 at a concrete input. -/
theorem claim_C7_witness :
    vocabInitStep "foo" [[(2 : ℚ)]] 0 (fun _ _ _ => []) [] = .ok [[2]] :=
  claim_C7.1 "foo" [[2]] 0 (fun _ _ _ => []) [] (by decide) (by decide)

/-! ### Claim C9 -/

/-- Claim C9, as stated, is false: with an empty new-token list and the
default policy, the expansion pipeline completes without any error (the
token-adding loop simply never runs), returning the matrix unchanged —
no `ConfigError` is raised anywhere. -/
theorem claim_C9_counterexample :
    expandAndInit "default" [] [[(1 : ℚ)]] (fun _ => [0]) (fun _ _ _ => []) []
      = .ok [[1]] := by
  rfl

theorem resize_zero_grow (m : List (List ℚ)) (ph : Nat → List ℚ) :
    resize_embeddings m (m.length + 0) ph = m := by
  rw [resize_embeddings, if_pos (Nat.le_add_right _ 0)]
  simp

/-- Claim C9 (amended): an empty new-token list raises no `ConfigError`.
Under the default (or any unrecognized) policy the pipeline completes with the
embedding matrix unchanged; under `avg` the `MultivariateNormal` construction
fails on the empty `data[:-0]` slice (nan mean/covariance), and under
`existing_word` `torch.stack` fails on an empty tuple — runtime tensor
errors, not `ConfigError`. -/
theorem claim_C9 :
    (∀ (method : String) (m : List (List ℚ)) (ph : Nat → List ℚ)
      (sample : List ℚ → List (List ℚ) → Nat → List ℚ) (perm : List Nat),
      method ≠ "avg" → method ≠ "existing_word" →
      expandAndInit method [] m ph sample perm = .ok m)
    ∧ (∀ (m : List (List ℚ)) (ph : Nat → List ℚ)
      (sample : List ℚ → List (List ℚ) → Nat → List ℚ) (perm : List Nat),
      expandAndInit "avg" [] m ph sample perm = .error .invalidDist)
    ∧ (∀ (m : List (List ℚ)) (ph : Nat → List ℚ)
      (sample : List ℚ → List (List ℚ) → Nat → List ℚ) (perm : List Nat),
      expandAndInit "existing_word" [] m ph sample perm = .error .emptyStack) := by
  refine ⟨?_, ?_, ?_⟩
  · intro method m ph sample perm h1 h2
    rw [expandAndInit, List.length_nil, resize_zero_grow m ph]
    exact vocabInitStep_other method h1 h2 m 0 sample perm
  · intro m ph sample perm
    rw [expandAndInit, List.length_nil, resize_zero_grow m ph]
    exact vocabInitStep_avg_err m 0 sample perm (Or.inl rfl)
  · intro m ph sample perm
    rw [expandAndInit, List.length_nil, resize_zero_grow m ph]
    exact vocabInitStep_existing_errStack m sample perm

/-- Witness for the amended claim C9 at a concrete input. -/
theorem claim_C9_witness :
    expandAndInit "xyz" [] [[(3 : ℚ)]] (fun _ => [0]) (fun _ _ _ => []) []
      = .ok [[3]] :=
  claim_C9.1 "xyz" [[3]] (fun _ => [0]) (fun _ _ _ => []) [] (by decide)
    (by decide)

/-! ### Claim C3 -/

theorem getD_map_range {β : Type _} (f : Nat → β) (n j : Nat) (hj : j < n)
    (d : β) : ((List.range n).map f).getD j d = f j := by
  rw [List.getD_eq_getElem?_getD, List.getElem?_map, List.getElem?_range hj]
  rfl

theorem getD_map_of_lt {α β : Type _} (f : α → β) (l : List α) (i : Nat)
    (hi : i < l.length) (db : β) : (l.map f).getD i db = f l[i] := by
  rw [List.getD_eq_getElem?_getD, List.getElem?_map, List.getElem?_eq_getElem hi]
  rfl

theorem getD_eq_getElem_of_lt {α : Type _} (l : List α) (i : Nat)
    (hi : i < l.length) (d : α) : l.getD i d = l[i] := by
  rw [List.getD_eq_getElem?_getD, List.getElem?_eq_getElem hi]
  rfl

theorem widthQ_eq_of_rect {x : List (List ℚ)} {d : Nat} (hne : x ≠ [])
    (h : ∀ r ∈ x, r.length = d) : widthQ x = d := by
  cases x with
  | nil => exact absurd rfl hne
  | cons r rest => exact h r (List.mem_cons_self r rest)

theorem zipWith_sub_getD (r mu : List ℚ) (a : Nat) (h1 : a < r.length)
    (h2 : a < mu.length) :
    (List.zipWith (fun x y => x - y) r mu).getD a 0
      = r.getD a 0 - mu.getD a 0 := by
  have h : (List.zipWith (fun x y => x - y) r mu)[a]? = some (r[a] - mu[a]) :=
    List.getElem?_zipWith_eq_some.mpr
      ⟨r[a], mu[a], List.getElem?_eq_getElem h1, List.getElem?_eq_getElem h2, rfl⟩
  rw [List.getD_eq_getElem?_getD, h, Option.getD_some,
    getD_eq_getElem_of_lt r a h1, getD_eq_getElem_of_lt mu a h2]

theorem avgMu_length (old : List (List ℚ)) : (avgMu old).length = widthQ old := by
  rw [avgMu, torchMeanDim0, List.length_map, List.length_range]

theorem avgMu_getD (old : List (List ℚ)) (d : Nat) (hne : old ≠ [])
    (hrect : ∀ r ∈ old, r.length = d) (j : Nat) (hj : j < d) :
    (avgMu old).getD j 0 = specColMean old j := by
  have hw : widthQ old = d := widthQ_eq_of_rect hne hrect
  rw [avgMu, torchMeanDim0, hw, getD_map_range _ d j hj 0]
  rfl

theorem widthQ_map_rows (f : List ℚ → List ℚ) (x : List (List ℚ))
    (hne : x ≠ []) : widthQ (x.map f) = (f (x.headD [])).length := by
  cases x with
  | nil => exact absurd rfl hne
  | cons r rest => rfl

theorem rowsSubVec_width (old : List (List ℚ)) (d : Nat) (hne : old ≠ [])
    (hrect : ∀ r ∈ old, r.length = d) :
    widthQ (rowsSubVec old (avgMu old)) = d := by
  have hw : widthQ old = d := widthQ_eq_of_rect hne hrect
  rw [rowsSubVec, widthQ_map_rows _ old hne, List.length_zipWith, avgMu_length]
  show min (widthQ old) (widthQ old) = d
  rw [hw, Nat.min_self]

theorem gramT_entry (Y : List (List ℚ)) (a b : Nat) (ha : a < widthQ Y)
    (hb : b < widthQ Y) :
    ((gramT Y).getD a []).getD b 0
      = (Y.map (fun r => r.getD a 0 * r.getD b 0)).sum := by
  rw [gramT, getD_map_range _ _ a ha [], getD_map_range _ _ b hb 0]

theorem gramT_length (Y : List (List ℚ)) : (gramT Y).length = widthQ Y := by
  rw [gramT, List.length_map, List.length_range]

theorem gramT_row_length (Y : List (List ℚ)) (a : Nat) (ha : a < widthQ Y) :
    ((gramT Y).getD a []).length = widthQ Y := by
  rw [gramT, getD_map_range _ _ a ha [], List.length_map, List.length_range]

theorem entry_mapmap (g : ℚ → ℚ) (M : List (List ℚ)) (a b : Nat)
    (ha : a < M.length) (hb : b < (M.getD a []).length) :
    ((M.map (fun r => r.map g)).getD a []).getD b 0
      = g ((M.getD a []).getD b 0) := by
  rw [getD_map_of_lt (fun r => r.map g) M a ha []]
  rw [getD_eq_getElem_of_lt M a ha] at hb ⊢
  rw [getD_map_of_lt g _ b hb 0, getD_eq_getElem_of_lt _ b hb]

/-- Claim C3: under the average-gaussian policy with `n ≥ 2` existing rows,
the mean vector is the columnwise mean of the existing rows, the covariance
passed to `MultivariateNormal` is exactly `1e-5` times the population
covariance `(X-μ)ᵀ(X-μ)/n` (divisor `n`, not `n-1`), and each new row written
by the expansion is the `i`-th independent draw of the sampler at exactly
those parameters. -/
theorem claim_C3 (old : List (List ℚ)) (d : Nat)
    (hrect : ∀ r ∈ old, r.length = d) (hn : 2 ≤ old.length) :
    (∀ j < d, (avgMu old).getD j 0 = specColMean old j)
    ∧ (∀ a < d, ∀ b < d, ((avgCov old).getD a []).getD b 0
        = (1 / 100000) * specCovEntry old a b)
    ∧ (∀ (m : List (List ℚ)) (k : Nat)
        (sample : List ℚ → List (List ℚ) → Nat → List ℚ) (perm : List Nat)
        (m2 : List (List ℚ)),
        sliceToNegK m k = old →
        vocabInitStep "avg" m k sample perm = .ok m2 →
        ∀ i < k, m2[(m.length - k) + i]?
          = some (sample (avgMu old) (avgCov old) i)) := by
  have hne : old ≠ [] := by
    intro h
    rw [h] at hn
    simp at hn
  have hw : widthQ old = d := widthQ_eq_of_rect hne hrect
  refine ⟨fun j hj => avgMu_getD old d hne hrect j hj, ?_, ?_⟩
  · intro a ha b hb
    have hYw : widthQ (rowsSubVec old (avgMu old)) = d :=
      rowsSubVec_width old d hne hrect
    have haY : a < widthQ (rowsSubVec old (avgMu old)) := by
      rw [hYw]; exact ha
    have hbY : b < widthQ (rowsSubVec old (avgMu old)) := by
      rw [hYw]; exact hb
    have hglen : a < (gramT (rowsSubVec old (avgMu old))).length := by
      rw [gramT_length]; exact haY
    have hgrow : b < ((gramT (rowsSubVec old (avgMu old))).getD a []).length := by
      rw [gramT_row_length _ a haY]; exact hbY
    have hslen : a < (avgSigma old).length := by
      rw [avgSigma, matDivNat, List.length_map]
      exact hglen
    have hsrow : b < ((avgSigma old).getD a []).length := by
      rw [avgSigma, matDivNat, getD_map_of_lt _ _ a hglen [], List.length_map]
      rw [getD_eq_getElem_of_lt _ a hglen] at hgrow
      exact hgrow
    rw [avgCov, matScale,
      entry_mapmap (fun q => 1 / 100000 * q) (avgSigma old) a b hslen hsrow]
    rw [avgSigma, matDivNat,
      entry_mapmap (fun q => q / (old.length : ℚ))
        (gramT (rowsSubVec old (avgMu old))) a b hglen hgrow]
    rw [gramT_entry (rowsSubVec old (avgMu old)) a b haY hbY]
    have hmulen : (avgMu old).length = d := by rw [avgMu_length, hw]
    have hsum : ((rowsSubVec old (avgMu old)).map
          (fun r => r.getD a 0 * r.getD b 0)).sum
        = (old.map (fun r =>
            (r.getD a 0 - specColMean old a)
              * (r.getD b 0 - specColMean old b))).sum := by
      rw [rowsSubVec, List.map_map]
      apply congrArg List.sum
      apply List.map_congr_left
      intro r hr
      have hra : r.length = d := hrect r hr
      show (List.zipWith (fun x y => x - y) r (avgMu old)).getD a 0
          * (List.zipWith (fun x y => x - y) r (avgMu old)).getD b 0 = _
      rw [zipWith_sub_getD r (avgMu old) a (by rw [hra]; exact ha)
          (by rw [hmulen]; exact ha),
        zipWith_sub_getD r (avgMu old) b (by rw [hra]; exact hb)
          (by rw [hmulen]; exact hb),
        avgMu_getD old d hne hrect a ha, avgMu_getD old d hne hrect b hb]
    rw [hsum]
    rfl
  · intro m k sample perm m2 hslice hok i hik
    have hlen0 : (sliceToNegK m k).length = old.length := by rw [hslice]
    have hk0 : k ≠ 0 := by
      intro h
      rw [h] at hslice
      rw [sliceToNegK, if_pos rfl] at hslice
      rw [← hslice] at hn
      simp at hn
    by_cases hpd : posDefQ (avgCov (sliceToNegK m k)) = false
    · rw [vocabInitStep_avg_err m k sample perm (Or.inr hpd)] at hok
      cases hok
    · have h0 : (sliceToNegK m k).length ≠ 0 := by
        rw [hlen0]
        omega
      rw [vocabInitStep_avg_ok m k sample perm h0 hpd] at hok
      cases hok
      have hmk : k ≤ m.length := by
        rw [sliceToNegK, if_neg hk0, List.length_take] at hlen0
        omega
      have hbound : (m.length - k) + ((List.range k).map
          (sample (avgMu (sliceToNegK m k)) (avgCov (sliceToNegK m k)))).length
          ≤ m.length := by
        rw [List.length_map, List.length_range]
        omega
      have hikr : i < ((List.range k).map
          (sample (avgMu (sliceToNegK m k)) (avgCov (sliceToNegK m k)))).length := by
        rw [List.length_map, List.length_range]
        exact hik
      show (setRowsFrom m (m.length - k) ((List.range k).map
          (sample (avgMu (sliceToNegK m k))
            (avgCov (sliceToNegK m k)))))[(m.length - k) + i]?
        = some (sample (avgMu old) (avgCov old) i)
      rw [setRowsFrom_getElem?_add _ m (m.length - k) i hbound hikr,
        List.getElem?_map, List.getElem?_range hik, hslice]
      rfl

/-- Witness for claim C3 at a concrete input (two existing rows `[0]`, `[2]`). -/
theorem claim_C3_witness :
    (avgMu [[(0 : ℚ)], [2]]).getD 0 0 = specColMean [[(0 : ℚ)], [2]] 0 :=
  (claim_C3 [[(0 : ℚ)], [2]] 1 (by decide) (by decide)).1 0 (by decide)

end RunTranslation
